import Mathlib

/-
Verification of the Relative Rotation Graph pipeline (rrg_main.py).

The numeric core of the program manipulates pandas Series of IEEE floats in
which three non-finite states matter: NaN (missing / undefined), +inf and
-inf (division of a nonzero value by zero).  We embed the values as an
inductive type `FV` whose finite payload is an exact rational.  Zeros are
unsigned (the program never produces an IEEE negative zero on the paths the
claims exercise); division of a nonzero finite value by zero therefore takes
the sign of the numerator, as with a +0 divisor.

The square root (inside pandas `std`) and natural logarithm (`np.log`) are
transcendental, so the embedding takes them as function parameters
`S L : ℚ → ℚ` applied only to finite arguments; the non-finite cases of
`np.log` and of the square root are handled faithfully by `fvLog`/`fvSqrt`.
All theorems below are proved for arbitrary `S` and `L` unless a property of
the real square root or logarithm is genuinely needed.
-/

set_option maxRecDepth 4000

namespace RRG

/-- An IEEE-style scalar: NaN, +inf, -inf, or a finite value (exact ℚ). -/
inductive FV where
  | nan : FV
  | pinf : FV
  | ninf : FV
  | num : ℚ → FV
deriving DecidableEq

/-- True exactly on NaN. -/
def FV.isNan : FV → Bool
  | .nan => true
  | _ => false

/-- True exactly on finite values. -/
def FV.isFinite : FV → Bool
  | .num _ => true
  | _ => false

/-- IEEE negation. -/
def FV.neg : FV → FV
  | .nan => .nan
  | .pinf => .ninf
  | .ninf => .pinf
  | .num a => .num (-a)

/-- IEEE addition (NaN absorbs; inf + (-inf) = NaN). -/
def FV.add : FV → FV → FV
  | .nan, _ => .nan
  | _, .nan => .nan
  | .pinf, .ninf => .nan
  | .ninf, .pinf => .nan
  | .pinf, _ => .pinf
  | _, .pinf => .pinf
  | .ninf, _ => .ninf
  | _, .ninf => .ninf
  | .num a, .num b => .num (a + b)

/-- IEEE subtraction, as addition of the negation. -/
def FV.sub (a b : FV) : FV := FV.add a (FV.neg b)

/-- IEEE multiplication (NaN absorbs; inf * 0 = NaN; signs multiply). -/
def FV.mul : FV → FV → FV
  | .nan, _ => .nan
  | _, .nan => .nan
  | .pinf, .pinf => .pinf
  | .pinf, .ninf => .ninf
  | .ninf, .pinf => .ninf
  | .ninf, .ninf => .pinf
  | .pinf, .num b => if 0 < b then .pinf else if b < 0 then .ninf else .nan
  | .num a, .pinf => if 0 < a then .pinf else if a < 0 then .ninf else .nan
  | .ninf, .num b => if 0 < b then .ninf else if b < 0 then .pinf else .nan
  | .num a, .ninf => if 0 < a then .ninf else if a < 0 then .pinf else .nan
  | .num a, .num b => .num (a * b)

/-- IEEE division (NaN absorbs; inf/inf = NaN; finite/inf = 0; nonzero
finite divided by zero gives an infinity with the numerator's sign, zeros
being unsigned; 0/0 = NaN). -/
def FV.div : FV → FV → FV
  | .nan, _ => .nan
  | _, .nan => .nan
  | .pinf, .pinf => .nan
  | .pinf, .ninf => .nan
  | .ninf, .pinf => .nan
  | .ninf, .ninf => .nan
  | .pinf, .num b => if b < 0 then .ninf else .pinf
  | .ninf, .num b => if b < 0 then .pinf else .ninf
  | .num _, .pinf => .num 0
  | .num _, .ninf => .num 0
  | .num a, .num b =>
      if b = 0 then (if a = 0 then .nan else if 0 < a then .pinf else .ninf)
      else .num (a / b)

/-- The `np.log` of an embedded value: `log NaN = NaN`, `log inf = inf`,
`log (-inf) = NaN`, `log x = NaN` for negative finite `x`, `log 0 = -inf`,
and on positive finite arguments the parameter function `L`. -/
def fvLog (L : ℚ → ℚ) : FV → FV
  | .nan => .nan
  | .pinf => .pinf
  | .ninf => .nan
  | .num x => if 0 < x then .num (L x) else if x = 0 then .ninf else .nan

/-- The square root of an embedded value: `NaN`/negative arguments give NaN,
`sqrt inf = inf`, and on nonnegative finite arguments the parameter `S`. -/
def fvSqrt (S : ℚ → ℚ) : FV → FV
  | .nan => .nan
  | .pinf => .pinf
  | .ninf => .nan
  | .num x => if x < 0 then .nan else .num (S x)

/-- The program's `replace(np.nan, 0)`: NaN becomes 0, all other values
(including infinities) pass through. -/
def sanitize (x : FV) : FV := if x.isNan then FV.num 0 else x

/-- The entries of a Series that pandas `skipna` statistics keep. -/
def dropNan (xs : List FV) : List FV := xs.filter (fun x => !x.isNan)

/-- Left fold of IEEE addition, as pandas summation. -/
def fvSum (xs : List FV) : FV := xs.foldl FV.add (FV.num 0)

/-- Pandas `Series.mean()` (skipna): NaN on an all-NaN series, otherwise the
sum of the non-NaN entries divided by their count. -/
def fvMean (xs : List FV) : FV :=
  if (dropNan xs).length = 0 then FV.nan
  else FV.div (fvSum (dropNan xs)) (FV.num ((dropNan xs).length : ℚ))

/-- Pandas `Series.var()` with the default `ddof = 1` (skipna): NaN when
fewer than two non-NaN entries remain, otherwise the sum of squared
deviations from the skipna mean divided by `count - 1`. -/
def fvVar (xs : List FV) : FV :=
  if (dropNan xs).length < 2 then FV.nan
  else
    FV.div
      (fvSum ((dropNan xs).map (fun y => FV.mul (FV.sub y (fvMean xs)) (FV.sub y (fvMean xs)))))
      (FV.num (((dropNan xs).length - 1 : ℕ) : ℚ))

/-- Pandas `Series.std()` with `ddof = 1`: square root of `fvVar`. -/
def fvStd (S : ℚ → ℚ) (xs : List FV) : FV := fvSqrt S (fvVar xs)

/-- The program's standardization-and-replace idiom
`(x - x.mean()) / x.std()` followed by `replace(np.nan, 0)`
(lines 62-64 and 74-75 of rrg_main.py), applied to one column. -/
def standardize (S : ℚ → ℚ) (xs : List FV) : List FV :=
  xs.map (fun x => sanitize (FV.div (FV.sub x (fvMean xs)) (fvStd S xs)))

/-- The aligned price table `aprc` after the join of line 59: a common date
index, the instrument columns, and an entry function; the benchmark column
is keyed by the name SP500.  Missing prices are `FV.nan`. -/
structure PTable where
  dates : List ℕ
  instruments : List String
  price : String → ℕ → FV

/-- All columns of the joined table `aprc`: the instruments plus SP500. -/
def allCols (aprc : PTable) : List String := aprc.instruments ++ ["SP500"]

/-- The ratio `aprc.div(aprc['SP500'], axis=0).mul(100)` at one entry
(line 62).  Line 67 divides by the standalone series `sp500` instead, but on
the joined table the two divisors coincide entrywise (the left join of line
59 makes `aprc['SP500']` the restriction of `sp500` to `aprc`'s index, and
index-union rows added by the alignment are all-NaN and are removed by the
subsequent `dropna()`), so one entry function serves both lines. -/
def ratioAt (aprc : PTable) (c : String) (t : ℕ) : FV :=
  FV.mul (FV.div (aprc.price c t) (aprc.price "SP500" t)) (FV.num 100)

/-- Instrument `c`'s ratio column over the full date index, the column of
line 62 that lines 63-64 standardize. -/
def rsRatios (aprc : PTable) (c : String) : List FV :=
  aprc.dates.map (ratioAt aprc c)

/-- The final RS series of instrument `c` (lines 62-64). -/
def rs (S : ℚ → ℚ) (aprc : PTable) (c : String) : List FV :=
  standardize S (rsRatios aprc c)

/-- The final RS value of instrument `c` at date `t` (the `t`-entry of
`rs`). -/
def rsAt (S : ℚ → ℚ) (aprc : PTable) (c : String) (t : ℕ) : FV :=
  sanitize (FV.div (FV.sub (ratioAt aprc c t) (fvMean (rsRatios aprc c)))
    (fvStd S (rsRatios aprc c)))

/-- The dates surviving `dropna()` on the ratio table of line 67: those at
which every column's ratio (every instrument and the benchmark itself) is
non-NaN. -/
def momDates (aprc : PTable) : List ℕ :=
  aprc.dates.filter (fun t => (allCols aprc).all (fun c => !(ratioAt aprc c t).isNan))

/-- Instrument `c`'s column of `mom_raw` (line 67): the ratio over the
row-complete dates only. -/
def mom_raw (aprc : PTable) (c : String) : List FV :=
  (momDates aprc).map (ratioAt aprc c)

/-- Pandas `pct_change(periods=k)` of a Series at position `i`: NaN for the
first `k` positions, then `x[i]/x[i-k] - 1` (lines 68-69; the series has no
NaN so the default `fill_method` pad is a no-op, and on NaN-free data
`(x[i]-x[i-k])/x[i-k]` and `x[i]/x[i-k] - 1` agree, zero denominators
included). -/
def pctAt (k : ℕ) (xs : List FV) (i : ℕ) : FV :=
  if i < k then FV.nan
  else FV.sub (FV.div (xs.getD i FV.nan) (xs.getD (i - k) FV.nan)) (FV.num 1)

/-- The raw momentum of instrument `c` at position `i` of its row-complete
history: `log(1 + mom3) - log(1 + mom1)` with NaN replaced by 0
(lines 70-71). -/
def momAt (L : ℚ → ℚ) (aprc : PTable) (c : String) (i : ℕ) : FV :=
  sanitize (FV.sub (fvLog L (FV.add (FV.num 1) (pctAt 63 (mom_raw aprc c) i)))
    (fvLog L (FV.add (FV.num 1) (pctAt 21 (mom_raw aprc c) i))))

/-- Instrument `c`'s raw momentum series `mom` (lines 70-71), indexed like
its row-complete history. -/
def mom (L : ℚ → ℚ) (aprc : PTable) (c : String) : List FV :=
  (List.range (mom_raw aprc c).length).map (momAt L aprc c)

/-- The final standardized momentum series `rs_mom` of instrument `c`
(lines 74-75). -/
def rs_mom (S L : ℚ → ℚ) (aprc : PTable) (c : String) : List FV :=
  standardize S (mom L aprc c)

/-- The mapping of lines 84-97 from the slider option string to the slicing
offset; `none` models the option strings the chain does not cover (the
slider of lines 78-82 only ever produces the seven listed strings). -/
def lookback_period (s : String) : Option Int :=
  if s = "LTD*" then some (-1)
  else if s = "3D" then some (-3)
  else if s = "7D" then some (-7)
  else if s = "14D" then some (-14)
  else if s = "21D" then some (-21)
  else if s = "50D" then some (-50)
  else if s = "MAX**" then some 0
  else none

/-- Python's `xs.iloc[l:]` on a Series of length `n`: for negative `l` the
last `|l|` elements (all of them when `|l| > n`), for nonnegative `l` the
drop of the first `l`. -/
def ilocFrom (l : Int) (xs : List α) : List α :=
  if l < 0 then xs.drop (xs.length - l.natAbs) else xs.drop l.toNat

/-- The trail slice of lines 120-127 for a chosen slider option: the
`iloc[lookback_period:]` suffix of an instrument's (date, RS, MOM) series. -/
def tailSlice (s : String) (xs : List (ℕ × FV × FV)) : Option (List (ℕ × FV × FV)) :=
  (lookback_period s).map (fun l => ilocFrom l xs)

/-- Python's `str.upper()` on the ASCII labels the program uses: uppercase
every character. -/
def upperAscii (s : String) : String := String.mk (s.data.map Char.toUpper)

/-- The four quadrant annotations of lines 132-135: position and upper-cased
text. -/
def annotationData : List (ℚ × ℚ × String) :=
  [(3/2, 3/2, upperAscii "Leading"),
   (3/2, -(3/2), upperAscii "Weakening"),
   (-(3/2), -(3/2), upperAscii "Lagging"),
   (-(3/2), 3/2, upperAscii "Improving")]

/-- Modelled from the spec: the quadrant of a point of the RS/MOM plane by
the signs of its coordinates — Leading (RS>0, MOM>0), Weakening (RS>0,
MOM<0), Lagging (RS<0, MOM<0), Improving (RS<0, MOM>0). -/
def quadrantLabel (x y : ℚ) : String :=
  if 0 < x ∧ 0 < y then "Leading"
  else if 0 < x ∧ y < 0 then "Weakening"
  else if x < 0 ∧ y < 0 then "Lagging"
  else if x < 0 ∧ 0 < y then "Improving"
  else ""

/-- Stand-in square root for the concrete instances below.  It agrees with
the exact square root at every argument at which those instances evaluate it
(namely 0 and 1/256 = (1/16)^2), sends 0 to 0 and every other value to a
positive value, as the real square root of a variance does. -/
def toySqrt (q : ℚ) : ℚ := if q = 1/256 then 1/16 else if q = 0 then 0 else 1

/-- A two-date table with one instrument and a constant benchmark. -/
def PT2 : PTable :=
  ⟨[0, 1], ["A"], fun c t => if c = "A" then (if t = 0 then FV.num 1 else FV.num 3) else FV.num 1⟩

/-- A three-date table whose instrument has a constant ratio of 200 to the
benchmark. -/
def PTconst : PTable :=
  ⟨[0, 1, 2], ["A"], fun c _ => if c = "A" then FV.num 2 else FV.num 1⟩

/-- A two-date table whose instrument price is missing (NaN) on the first
date. -/
def PTmiss : PTable :=
  ⟨[0, 1], ["A"], fun c t => if c = "A" ∧ t = 0 then FV.nan else FV.num 1⟩

/-- A two-date table whose benchmark price is zero on the first date, so the
instrument's ratio there is +inf. -/
def PTinf : PTable :=
  ⟨[0, 1], ["A"], fun c t => if c = "SP500" ∧ t = 0 then FV.num 0 else FV.num 1⟩

/-- A 64-date table with a constant benchmark; the instrument's price is 1
except for the value 2 at date 42, so its only defined raw-momentum entry
(position 63) is nonzero while positions 0..62 have insufficient history. -/
def PT64 : PTable :=
  ⟨List.range 64, ["A"], fun c t => if c = "A" ∧ t = 42 then FV.num 2 else FV.num 1⟩

/-- A concrete 50-point (date, RS, MOM) series for the trail-slice
instances. -/
def W50 : List (ℕ × FV × FV) := (List.range 50).map (fun i => (i, FV.num i, FV.num 0))

lemma FV.nan_add (x : FV) : FV.add FV.nan x = FV.nan := by cases x <;> rfl

lemma FV.add_nan (x : FV) : FV.add x FV.nan = FV.nan := by cases x <;> rfl

lemma FV.nan_sub (x : FV) : FV.sub FV.nan x = FV.nan := by cases x <;> rfl

lemma FV.sub_nan (x : FV) : FV.sub x FV.nan = FV.nan := by cases x <;> rfl

lemma FV.nan_div (x : FV) : FV.div FV.nan x = FV.nan := by cases x <;> rfl

lemma FV.div_nan (x : FV) : FV.div x FV.nan = FV.nan := by cases x <;> rfl

lemma FV.nan_mul (x : FV) : FV.mul FV.nan x = FV.nan := by cases x <;> rfl

lemma FV.num_add (a b : ℚ) : FV.add (FV.num a) (FV.num b) = FV.num (a + b) := rfl

lemma FV.num_sub (a b : ℚ) : FV.sub (FV.num a) (FV.num b) = FV.num (a - b) := by
  show FV.num (a + -b) = FV.num (a - b)
  rw [← sub_eq_add_neg]

lemma FV.num_mul (a b : ℚ) : FV.mul (FV.num a) (FV.num b) = FV.num (a * b) := rfl

lemma FV.num_div (a b : ℚ) (h : b ≠ 0) : FV.div (FV.num a) (FV.num b) = FV.num (a / b) := by
  simp [FV.div, h]

lemma fvLog_nan (L : ℚ → ℚ) : fvLog L FV.nan = FV.nan := rfl

lemma fvSqrt_nan (S : ℚ → ℚ) : fvSqrt S FV.nan = FV.nan := rfl

lemma fvSqrt_num_zero (S : ℚ → ℚ) : fvSqrt S (FV.num 0) = FV.num (S 0) := by
  simp [fvSqrt]

lemma sanitize_nan : sanitize FV.nan = FV.num 0 := rfl

lemma sanitize_isNan_false (x : FV) : (sanitize x).isNan = false := by
  cases x <;> rfl

lemma foldl_add_nan (l : List FV) : l.foldl FV.add FV.nan = FV.nan := by
  induction l with
  | nil => rfl
  | cons x tl ih => rw [List.foldl_cons, FV.nan_add, ih]

lemma foldl_add_of_nan_mem {l : List FV} (h : FV.nan ∈ l) (a : FV) :
    l.foldl FV.add a = FV.nan := by
  induction l generalizing a with
  | nil => cases h
  | cons x tl ih =>
    rcases List.mem_cons.mp h with h1 | h1
    · rw [List.foldl_cons, ← h1, FV.add_nan, foldl_add_nan]
    · exact ih h1 _

lemma foldl_add_acc_pinf {l : List FV} {a : FV} (ha : a = FV.pinf ∨ a = FV.nan) :
    l.foldl FV.add a = FV.pinf ∨ l.foldl FV.add a = FV.nan := by
  induction l generalizing a with
  | nil => simpa using ha
  | cons x tl ih =>
    rw [List.foldl_cons]
    apply ih
    rcases ha with h | h <;> subst h <;> cases x <;> simp [FV.add]

lemma foldl_add_acc_ninf {l : List FV} {a : FV} (ha : a = FV.ninf ∨ a = FV.nan) :
    l.foldl FV.add a = FV.ninf ∨ l.foldl FV.add a = FV.nan := by
  induction l generalizing a with
  | nil => simpa using ha
  | cons x tl ih =>
    rw [List.foldl_cons]
    apply ih
    rcases ha with h | h <;> subst h <;> cases x <;> simp [FV.add]

lemma foldl_add_of_pinf_mem {l : List FV} (h : FV.pinf ∈ l) (a : FV) :
    l.foldl FV.add a = FV.pinf ∨ l.foldl FV.add a = FV.nan := by
  induction l generalizing a with
  | nil => cases h
  | cons x tl ih =>
    rw [List.foldl_cons]
    rcases List.mem_cons.mp h with h1 | h1
    · rw [← h1]
      apply foldl_add_acc_pinf
      cases a <;> simp [FV.add]
    · exact ih h1 _

lemma foldl_add_of_ninf_mem {l : List FV} (h : FV.ninf ∈ l) (a : FV) :
    l.foldl FV.add a = FV.ninf ∨ l.foldl FV.add a = FV.nan := by
  induction l generalizing a with
  | nil => cases h
  | cons x tl ih =>
    rw [List.foldl_cons]
    rcases List.mem_cons.mp h with h1 | h1
    · rw [← h1]
      apply foldl_add_acc_ninf
      cases a <;> simp [FV.add]
    · exact ih h1 _

lemma foldl_add_const (q : ℚ) (l : List FV) (a : ℚ) (h : ∀ x ∈ l, x = FV.num q) :
    l.foldl FV.add (FV.num a) = FV.num (a + l.length * q) := by
  induction l generalizing a with
  | nil => simp
  | cons x tl ih =>
    have hx : x = FV.num q := h x (List.mem_cons_self _ _)
    subst hx
    rw [List.foldl_cons, FV.num_add, ih (a + q) (fun y hy => h y (List.mem_cons_of_mem _ hy))]
    congr 1
    rw [List.length_cons]
    push_cast
    ring

lemma fvSum_const {l : List FV} {q : ℚ} (h : ∀ x ∈ l, x = FV.num q) :
    fvSum l = FV.num (l.length * q) := by
  unfold fvSum
  rw [foldl_add_const q l 0 h, zero_add]

lemma fvMean_of_pinf_mem {xs : List FV} (hp : FV.pinf ∈ dropNan xs) :
    fvMean xs = FV.pinf ∨ fvMean xs = FV.nan := by
  have h0 : (dropNan xs).length ≠ 0 :=
    Nat.pos_iff_ne_zero.mp (List.length_pos.mpr (List.ne_nil_of_mem hp))
  unfold fvMean
  rw [if_neg h0]
  rcases foldl_add_of_pinf_mem hp (FV.num 0) with h | h <;>
    rw [show fvSum (dropNan xs) = List.foldl FV.add (FV.num 0) (dropNan xs) from rfl, h]
  · left
    have hnn : ¬(((dropNan xs).length : ℚ) < 0) := not_lt.mpr (Nat.cast_nonneg _)
    simp [FV.div, hnn]
  · right
    rw [FV.nan_div]

lemma fvMean_of_ninf_mem {xs : List FV} (hp : FV.ninf ∈ dropNan xs) :
    fvMean xs = FV.ninf ∨ fvMean xs = FV.nan := by
  have h0 : (dropNan xs).length ≠ 0 :=
    Nat.pos_iff_ne_zero.mp (List.length_pos.mpr (List.ne_nil_of_mem hp))
  unfold fvMean
  rw [if_neg h0]
  rcases foldl_add_of_ninf_mem hp (FV.num 0) with h | h <;>
    rw [show fvSum (dropNan xs) = List.foldl FV.add (FV.num 0) (dropNan xs) from rfl, h]
  · left
    have hnn : ¬(((dropNan xs).length : ℚ) < 0) := not_lt.mpr (Nat.cast_nonneg _)
    simp [FV.div, hnn]
  · right
    rw [FV.nan_div]

lemma fvVar_nan_of_pinf_mem {xs : List FV} (hp : FV.pinf ∈ dropNan xs) :
    fvVar xs = FV.nan := by
  unfold fvVar
  by_cases h2 : (dropNan xs).length < 2
  · rw [if_pos h2]
  · rw [if_neg h2]
    have hdev : FV.sub FV.pinf (fvMean xs) = FV.nan := by
      rcases fvMean_of_pinf_mem hp with h | h <;> rw [h] <;> rfl
    have hmem : FV.nan ∈ (dropNan xs).map
        (fun y => FV.mul (FV.sub y (fvMean xs)) (FV.sub y (fvMean xs))) := by
      refine List.mem_map.mpr ⟨FV.pinf, hp, ?_⟩
      rw [hdev]
      rfl
    rw [show fvSum ((dropNan xs).map
          (fun y => FV.mul (FV.sub y (fvMean xs)) (FV.sub y (fvMean xs)))) =
        List.foldl FV.add (FV.num 0) ((dropNan xs).map
          (fun y => FV.mul (FV.sub y (fvMean xs)) (FV.sub y (fvMean xs)))) from rfl]
    rw [foldl_add_of_nan_mem hmem, FV.nan_div]

lemma fvVar_nan_of_ninf_mem {xs : List FV} (hp : FV.ninf ∈ dropNan xs) :
    fvVar xs = FV.nan := by
  unfold fvVar
  by_cases h2 : (dropNan xs).length < 2
  · rw [if_pos h2]
  · rw [if_neg h2]
    have hdev : FV.sub FV.ninf (fvMean xs) = FV.nan := by
      rcases fvMean_of_ninf_mem hp with h | h <;> rw [h] <;> rfl
    have hmem : FV.nan ∈ (dropNan xs).map
        (fun y => FV.mul (FV.sub y (fvMean xs)) (FV.sub y (fvMean xs))) := by
      refine List.mem_map.mpr ⟨FV.ninf, hp, ?_⟩
      rw [hdev]
      rfl
    rw [show fvSum ((dropNan xs).map
          (fun y => FV.mul (FV.sub y (fvMean xs)) (FV.sub y (fvMean xs)))) =
        List.foldl FV.add (FV.num 0) ((dropNan xs).map
          (fun y => FV.mul (FV.sub y (fvMean xs)) (FV.sub y (fvMean xs)))) from rfl]
    rw [foldl_add_of_nan_mem hmem, FV.nan_div]

lemma rsAt_zero_of_nonfinite (S : ℚ → ℚ) (aprc : PTable) (c : String) (t : ℕ)
    (ht : t ∈ aprc.dates) (h : (ratioAt aprc c t).isFinite = false) :
    rsAt S aprc c t = FV.num 0 := by
  cases hr : ratioAt aprc c t with
  | num a => rw [hr] at h; simp [FV.isFinite] at h
  | nan =>
    unfold rsAt
    rw [hr, FV.nan_sub, FV.nan_div, sanitize_nan]
  | pinf =>
    have hmem : FV.pinf ∈ rsRatios aprc c := hr ▸ List.mem_map_of_mem _ ht
    have hmem2 : FV.pinf ∈ dropNan (rsRatios aprc c) := List.mem_filter.mpr ⟨hmem, rfl⟩
    unfold rsAt fvStd
    rw [fvVar_nan_of_pinf_mem hmem2, fvSqrt_nan, FV.div_nan, sanitize_nan]
  | ninf =>
    have hmem : FV.ninf ∈ rsRatios aprc c := hr ▸ List.mem_map_of_mem _ ht
    have hmem2 : FV.ninf ∈ dropNan (rsRatios aprc c) := List.mem_filter.mpr ⟨hmem, rfl⟩
    unfold rsAt fvStd
    rw [fvVar_nan_of_ninf_mem hmem2, fvSqrt_nan, FV.div_nan, sanitize_nan]

lemma momAt_zero_of_lt63 (L : ℚ → ℚ) (aprc : PTable) (c : String) (i : ℕ) (h : i < 63) :
    momAt L aprc c i = FV.num 0 := by
  unfold momAt pctAt
  rw [if_pos h, FV.add_nan, fvLog_nan, FV.nan_sub, sanitize_nan]

lemma mem_standardize_not_nan {S : ℚ → ℚ} {xs : List FV} {x : FV}
    (h : x ∈ standardize S xs) : x.isNan = false := by
  obtain ⟨y, _, rfl⟩ := List.mem_map.mp h
  exact sanitize_isNan_false _

lemma standardize_all_not_nan (S : ℚ → ℚ) (xs : List FV) :
    (standardize S xs).all (fun x => !x.isNan) = true := by
  rw [List.all_eq_true]
  intro x hx
  rw [mem_standardize_not_nan hx]
  rfl

lemma getD_range_map {α : Type} (f : ℕ → α) (n i : ℕ) (d : α) (h : i < n) :
    ((List.range n).map f).getD i d = f i := by
  rw [List.getD_eq_getElem?_getD, List.getElem?_map, List.getElem?_range h]
  rfl

lemma slice_spec (n : Int) (k : ℕ) (h1 : n < 0) (h2 : n.natAbs = k)
    (xs : List (ℕ × FV × FV)) (hk : k ≤ xs.length) :
    ilocFrom n xs = xs.drop (xs.length - k) ∧ (xs.drop (xs.length - k)).length = k := by
  constructor
  · unfold ilocFrom
    rw [if_pos h1, h2]
  · rw [List.length_drop]
    omega

unseal Rat.mul Rat.add Rat.sub Rat.inv Rat.ofScientific

/-- C1 (amended): every statistically undefined intermediate collapses to 0
at the stage where the zero-substitution is applied, and no error is ever
raised (the pipeline is total): a non-finite ratio (NaN from missing data or
0/0, or an infinity from division by a zero benchmark price) yields exactly
0 in the final RS series at that date; insufficient rolling-window history
yields exactly 0 in the raw momentum series; and the final standardized MOM
series never contains NaN.  (The claim as stated is refuted by
`claim_C1_cex`: the final MOM series re-standardizes the substituted zeros,
so at an insufficient-history date it carries `(0 - mean)/std` of the raw
momentum column, which is nonzero whenever that column's mean is nonzero.) -/
theorem claim_C1 (S L : ℚ → ℚ) (aprc : PTable) (c : String) (t i : ℕ)
    (ht : t ∈ aprc.dates) (hnf : (ratioAt aprc c t).isFinite = false) (hi : i < 63) :
    rsAt S aprc c t = FV.num 0 ∧ momAt L aprc c i = FV.num 0 ∧
      (rs_mom S L aprc c).all (fun x => !x.isNan) = true :=
  ⟨rsAt_zero_of_nonfinite S aprc c t ht hnf, momAt_zero_of_lt63 L aprc c i hi,
    standardize_all_not_nan S _⟩

/-- C1 witness: in `PTinf` the benchmark price is 0 at date 0, so the ratio
of instrument A at date 0 is +inf (non-finite); the amended theorem applies
there with window position 0. -/
theorem claim_C1_witness :
    (0 ∈ PTinf.dates) ∧ ((ratioAt PTinf "A" 0).isFinite = false) ∧ (0 < 63) ∧
      (rsAt toySqrt PTinf "A" 0 = FV.num 0 ∧ momAt id PTinf "A" 0 = FV.num 0 ∧
        (rs_mom toySqrt id PTinf "A").all (fun x => !x.isNan) = true) :=
  ⟨by decide, by decide, by decide,
    claim_C1 toySqrt id PTinf "A" 0 0 (by decide) (by decide) (by decide)⟩

/-- C1 counterexample: in `PT64` the raw-momentum position 0 has
insufficient rolling-window history (its 63-period percent change is NaN),
yet the final standardized MOM value there is -1/8, not 0: the claim that
every undefined intermediate yields exactly 0 in the final MOM series is
false.  (`toySqrt` agrees with the exact square root at the one variance,
1/256, at which this instance evaluates it, and for any strictly monotone
choice of the logarithm in place of `id` the value stays nonzero, since it
equals `-(mean/std)` of a raw-momentum column with exactly one nonzero
entry.) -/
theorem claim_C1_cex :
    pctAt 63 (mom_raw PT64 "A") 0 = FV.nan ∧
      (rs_mom toySqrt id PT64 "A").getD 0 FV.nan = FV.num (-(1/8)) ∧
      FV.num (-(1/8)) ≠ FV.num 0 := by decide

/-- C6: if an instrument's ratio-to-benchmark series is constant over its
full history, its final RS series is 0 at every date — never NaN — whatever
the standard-deviation square root evaluates to at 0 (a zero variance leads
either to a 0/0 = NaN, replaced by 0, or to an exact 0/positive = 0). -/
theorem claim_C6 (S : ℚ → ℚ) (aprc : PTable) (c : String) (q : ℚ)
    (hconst : ∀ t ∈ aprc.dates, ratioAt aprc c t = FV.num q) :
    ∀ x ∈ rs S aprc c, x = FV.num 0 := by
  intro x hx
  have hall : ∀ y ∈ rsRatios aprc c, y = FV.num q := by
    intro y hy
    obtain ⟨t, ht, rfl⟩ := List.mem_map.mp hy
    exact hconst t ht
  obtain ⟨y, hy, rfl⟩ := List.mem_map.mp hx
  have hyq := hall y hy
  subst hyq
  set l := rsRatios aprc c with hldef
  have hdrop : dropNan l = l :=
    List.filter_eq_self.mpr (fun z hz => by rw [hall z hz]; rfl)
  have hne : l.length ≠ 0 :=
    Nat.pos_iff_ne_zero.mp (List.length_pos.mpr (List.ne_nil_of_mem hy))
  have hcast : ((l.length : ℚ)) ≠ 0 := Nat.cast_ne_zero.mpr hne
  have hmean : fvMean l = FV.num q := by
    unfold fvMean
    rw [hdrop, if_neg hne, fvSum_const hall, FV.num_div _ _ hcast, mul_comm,
      mul_div_assoc, div_self hcast, mul_one]
  by_cases hl2 : l.length < 2
  · have hvar : fvVar l = FV.nan := by
      unfold fvVar
      rw [hdrop, if_pos hl2]
    show sanitize (FV.div (FV.sub (FV.num q) (fvMean l)) (fvStd S l)) = FV.num 0
    unfold fvStd
    rw [hvar, fvSqrt_nan, FV.div_nan, sanitize_nan]
  · have hzero : ∀ z ∈ l.map (fun y => FV.mul (FV.sub y (fvMean l)) (FV.sub y (fvMean l))),
        z = FV.num 0 := by
      intro z hz
      obtain ⟨w, hw, rfl⟩ := List.mem_map.mp hz
      rw [hall w hw, hmean, FV.num_sub, sub_self, FV.num_mul, mul_zero]
    have hd : ((l.length - 1 : ℕ) : ℚ) ≠ 0 := by
      have h2 : 2 ≤ l.length := not_lt.mp hl2
      have h3 : l.length - 1 ≠ 0 := by omega
      exact_mod_cast h3
    have hvar : fvVar l = FV.num 0 := by
      unfold fvVar
      rw [hdrop, if_neg hl2, fvSum_const hzero, mul_zero, FV.num_div _ _ hd, zero_div]
    show sanitize (FV.div (FV.sub (FV.num q) (fvMean l)) (fvStd S l)) = FV.num 0
    rw [hmean, FV.num_sub, sub_self]
    unfold fvStd
    rw [hvar, fvSqrt_num_zero]
    by_cases hS : S 0 = 0
    · rw [hS]
      rfl
    · rw [FV.num_div _ _ hS, zero_div]
      rfl

/-- C6 witness: in `PTconst` the instrument's ratio is the constant 200 over
all three dates, and its RS series is all zeros. -/
theorem claim_C6_witness :
    (∀ t ∈ PTconst.dates, ratioAt PTconst "A" t = FV.num 200) ∧
      ∀ x ∈ rs toySqrt PTconst "A", x = FV.num 0 :=
  ⟨by decide, claim_C6 toySqrt PTconst "A" 200 (by decide)⟩

/-- C7: the raw momentum (the `mom` series of lines 70-71) is 0 at each of
the first 63 positions of the row-complete history, and in particular it is
0 at every date for an instrument whose row-complete history has fewer than
63 points. -/
theorem claim_C7 (L : ℚ → ℚ) (aprc : PTable) (c : String) :
    (∀ i, i < 63 → momAt L aprc c i = FV.num 0) ∧
      ((mom_raw aprc c).length < 63 → ∀ x ∈ mom L aprc c, x = FV.num 0) := by
  constructor
  · intro i hi
    exact momAt_zero_of_lt63 L aprc c i hi
  · intro hlen x hx
    obtain ⟨i, hi, rfl⟩ := List.mem_map.mp hx
    exact momAt_zero_of_lt63 L aprc c i (lt_trans (List.mem_range.mp hi) hlen)

/-- C7 witness: `PT2` has a 2-point row-complete history (fewer than 63), so
its raw momentum is 0 at position 0 and at every position of its series. -/
theorem claim_C7_witness :
    ((mom_raw PT2 "A").length < 63) ∧ (0 < 63) ∧ momAt id PT2 "A" 0 = FV.num 0 ∧
      ∀ x ∈ mom id PT2 "A", x = FV.num 0 :=
  ⟨by decide, by decide, (claim_C7 id PT2 "A").1 0 (by decide),
    (claim_C7 id PT2 "A").2 (by decide)⟩

/-- C9: each of the four quadrant annotations of lines 132-135 carries, at
its position, exactly the upper-cased label that the sign-based quadrant
definition of the spec assigns to that position: (1.5, 1.5) Leading,
(1.5, -1.5) Weakening, (-1.5, -1.5) Lagging, (-1.5, 1.5) Improving. -/
theorem claim_C9 :
    annotationData =
      [(3/2, 3/2, upperAscii (quadrantLabel (3/2) (3/2))),
       (3/2, -(3/2), upperAscii (quadrantLabel (3/2) (-(3/2)))),
       (-(3/2), -(3/2), upperAscii (quadrantLabel (-(3/2)) (-(3/2)))),
       (-(3/2), 3/2, upperAscii (quadrantLabel (-(3/2)) (3/2)))] := by
  decide

/-- C2: at any date where both the instrument price and the (nonzero)
benchmark price exist, the pre-standardization ratio is exactly
`price/benchmark*100`, and the final RS value is that ratio minus the
full-history skipna mean of the instrument's ratio column, divided by the
square root of the full-history `ddof = 1` variance of that column, with an
undefined (NaN) result replaced by 0. -/
theorem claim_C2 (S : ℚ → ℚ) (aprc : PTable) (c : String) (t : ℕ) (p b : ℚ)
    (hp : aprc.price c t = FV.num p) (hb : aprc.price "SP500" t = FV.num b)
    (hbne : b ≠ 0) :
    ratioAt aprc c t = FV.num (p / b * 100) ∧
      rsAt S aprc c t =
        sanitize (FV.div (FV.sub (FV.num (p / b * 100)) (fvMean (rsRatios aprc c)))
          (fvSqrt S (fvVar (rsRatios aprc c)))) := by
  have hr : ratioAt aprc c t = FV.num (p / b * 100) := by
    unfold ratioAt
    rw [hp, hb, FV.num_div p b hbne, FV.num_mul]
  refine ⟨hr, ?_⟩
  unfold rsAt fvStd
  rw [hr]

/-- C2 witness: in `PT2` both prices exist at date 0 (instrument 1,
benchmark 1, nonzero), and the theorem's two equations hold there. -/
theorem claim_C2_witness :
    PT2.price "A" 0 = FV.num 1 ∧ PT2.price "SP500" 0 = FV.num 1 ∧ ((1 : ℚ) ≠ 0) ∧
      ratioAt PT2 "A" 0 = FV.num (1 / 1 * 100) ∧
      rsAt toySqrt PT2 "A" 0 =
        sanitize (FV.div (FV.sub (FV.num (1 / 1 * 100)) (fvMean (rsRatios PT2 "A")))
          (fvSqrt toySqrt (fvVar (rsRatios PT2 "A")))) :=
  ⟨rfl, rfl, by norm_num,
    (claim_C2 toySqrt PT2 "A" 0 1 1 rfl rfl (by norm_num)).1,
    (claim_C2 toySqrt PT2 "A" 0 1 1 rfl rfl (by norm_num)).2⟩

/-- C3: at every position of the row-complete momentum ratio series, the raw
momentum equals `ln(1 + pctL) - ln(1 + pctS)` with NaN replaced by 0, where
`pctL` is the 63-period and `pctS` the 21-period percent change
`ratio[t]/ratio[t-k] - 1` over the row-complete series (NaN within the first
k positions). -/
theorem claim_C3 (L : ℚ → ℚ) (aprc : PTable) (c : String) (i : ℕ)
    (h : i < (mom_raw aprc c).length) :
    (mom L aprc c).getD i FV.nan =
      sanitize (FV.sub
        (fvLog L (FV.add (FV.num 1)
          (if i < 63 then FV.nan
           else FV.sub (FV.div ((mom_raw aprc c).getD i FV.nan)
             ((mom_raw aprc c).getD (i - 63) FV.nan)) (FV.num 1))))
        (fvLog L (FV.add (FV.num 1)
          (if i < 21 then FV.nan
           else FV.sub (FV.div ((mom_raw aprc c).getD i FV.nan)
             ((mom_raw aprc c).getD (i - 21) FV.nan)) (FV.num 1))))) := by
  unfold mom
  rw [getD_range_map _ _ _ _ h]
  rfl

/-- C3 witness: the momentum formula instantiated at position 0 of `PT2`'s
2-point row-complete history. -/
theorem claim_C3_witness :
    (0 < (mom_raw PT2 "A").length) ∧
      (mom id PT2 "A").getD 0 FV.nan =
        sanitize (FV.sub
          (fvLog id (FV.add (FV.num 1)
            (if 0 < 63 then FV.nan
             else FV.sub (FV.div ((mom_raw PT2 "A").getD 0 FV.nan)
               ((mom_raw PT2 "A").getD (0 - 63) FV.nan)) (FV.num 1))))
          (fvLog id (FV.add (FV.num 1)
            (if 0 < 21 then FV.nan
             else FV.sub (FV.div ((mom_raw PT2 "A").getD 0 FV.nan)
               ((mom_raw PT2 "A").getD (0 - 21) FV.nan)) (FV.num 1))))) :=
  ⟨by decide, claim_C3 id PT2 "A" 0 (by decide)⟩

/-- C4 (amended): the MOM series' date index is always a subsequence of the
RS series' date index (the row-complete subset of the table's dates), and
the two coincide — giving one common date index per instrument, with the RS
and MOM series lengths matching their indices — exactly when no date has a
NaN ratio in any column; with missing data the MOM index is strictly
smaller.  (The claim as stated is refuted by `claim_C4_cex`.) -/
theorem claim_C4 (S L : ℚ → ℚ) (aprc : PTable) (c : String) :
    (momDates aprc).Sublist aprc.dates ∧
      ((∀ t ∈ aprc.dates, ∀ c2 ∈ allCols aprc, (ratioAt aprc c2 t).isNan = false) →
        momDates aprc = aprc.dates ∧ (rs S aprc c).length = aprc.dates.length ∧
          (rs_mom S L aprc c).length = (momDates aprc).length) := by
  constructor
  · unfold momDates
    exact List.filter_sublist _
  · intro h
    have hmd : momDates aprc = aprc.dates := by
      unfold momDates
      refine List.filter_eq_self.mpr (fun t ht => ?_)
      rw [List.all_eq_true]
      intro c2 hc2
      rw [h t ht c2 hc2]
      rfl
    refine ⟨hmd, ?_, ?_⟩
    · unfold rs standardize rsRatios
      rw [List.length_map, List.length_map]
    · unfold rs_mom standardize mom
      rw [List.length_map, List.length_map, List.length_range]
      unfold mom_raw
      rw [List.length_map]

/-- C4 witness: `PTconst` has no missing data, so its MOM date index equals
its RS date index and the series lengths agree. -/
theorem claim_C4_witness :
    momDates PTconst = PTconst.dates ∧
      (rs toySqrt PTconst "A").length = PTconst.dates.length ∧
      (rs_mom toySqrt id PTconst "A").length = (momDates PTconst).length :=
  (claim_C4 toySqrt id PTconst "A").2 (by decide)

/-- C4 counterexample: in `PTmiss` (instrument price missing at date 0) the
MOM series is indexed by [1] while the RS series is indexed by [0, 1] — the
two output series do not share one common date index. -/
theorem claim_C4_cex :
    momDates PTmiss ≠ PTmiss.dates ∧ momDates PTmiss = [1] ∧ PTmiss.dates = [0, 1] := by
  decide

/-- C5: a date at which any column's ratio is NaN (a missing instrument or
benchmark price) is excluded from the momentum computation for all
instruments, while the RS series still carries an entry at every table date
for every instrument. -/
theorem claim_C5 (S : ℚ → ℚ) (aprc : PTable) (c : String) (t : ℕ)
    (_ht : t ∈ aprc.dates)
    (hnan : ∃ c2 ∈ allCols aprc, (ratioAt aprc c2 t).isNan = true) :
    t ∉ momDates aprc ∧ rs S aprc c = aprc.dates.map (rsAt S aprc c) := by
  constructor
  · intro hmem
    unfold momDates at hmem
    obtain ⟨c2, hc2, hnan2⟩ := hnan
    have hall := (List.mem_filter.mp hmem).2
    rw [List.all_eq_true] at hall
    have h2 := hall c2 hc2
    rw [hnan2] at h2
    simp at h2
  · unfold rs standardize rsRatios rsAt
    rw [List.map_map]
    rfl

/-- C5 witness: in `PTmiss`, date 0 has a NaN ratio for instrument A, is
excluded from the momentum dates, and the RS series still maps over both
dates. -/
theorem claim_C5_witness :
    (0 ∈ PTmiss.dates) ∧ ((ratioAt PTmiss "A" 0).isNan = true) ∧
      (0 ∉ momDates PTmiss ∧
        rs toySqrt PTmiss "A" = PTmiss.dates.map (rsAt toySqrt PTmiss "A")) :=
  ⟨by decide, by decide,
    claim_C5 toySqrt PTmiss "A" 0 (by decide) ⟨"A", by decide, by decide⟩⟩

/-- C8: the trail slice returns exactly the last k points of a (date, RS,
MOM) series in its original (ascending-date) order: 1 for the last-trading-
day option, 3/7/14/21/50 for the fixed windows (whenever the series has at
least that many points), and the entire series for MAX. -/
theorem claim_C8 (xs : List (ℕ × FV × FV)) :
    (1 ≤ xs.length →
      tailSlice "LTD*" xs = some (xs.drop (xs.length - 1)) ∧
        (xs.drop (xs.length - 1)).length = 1) ∧
    (3 ≤ xs.length →
      tailSlice "3D" xs = some (xs.drop (xs.length - 3)) ∧
        (xs.drop (xs.length - 3)).length = 3) ∧
    (7 ≤ xs.length →
      tailSlice "7D" xs = some (xs.drop (xs.length - 7)) ∧
        (xs.drop (xs.length - 7)).length = 7) ∧
    (14 ≤ xs.length →
      tailSlice "14D" xs = some (xs.drop (xs.length - 14)) ∧
        (xs.drop (xs.length - 14)).length = 14) ∧
    (21 ≤ xs.length →
      tailSlice "21D" xs = some (xs.drop (xs.length - 21)) ∧
        (xs.drop (xs.length - 21)).length = 21) ∧
    (50 ≤ xs.length →
      tailSlice "50D" xs = some (xs.drop (xs.length - 50)) ∧
        (xs.drop (xs.length - 50)).length = 50) ∧
    tailSlice "MAX**" xs = some xs := by
  refine ⟨fun h => ?_, fun h => ?_, fun h => ?_, fun h => ?_, fun h => ?_, fun h => ?_, ?_⟩
  · have hs := slice_spec (-1) 1 (by decide) (by decide) xs h
    exact ⟨by rw [show tailSlice "LTD*" xs = some (ilocFrom (-1) xs) from rfl, hs.1], hs.2⟩
  · have hs := slice_spec (-3) 3 (by decide) (by decide) xs h
    exact ⟨by rw [show tailSlice "3D" xs = some (ilocFrom (-3) xs) from rfl, hs.1], hs.2⟩
  · have hs := slice_spec (-7) 7 (by decide) (by decide) xs h
    exact ⟨by rw [show tailSlice "7D" xs = some (ilocFrom (-7) xs) from rfl, hs.1], hs.2⟩
  · have hs := slice_spec (-14) 14 (by decide) (by decide) xs h
    exact ⟨by rw [show tailSlice "14D" xs = some (ilocFrom (-14) xs) from rfl, hs.1], hs.2⟩
  · have hs := slice_spec (-21) 21 (by decide) (by decide) xs h
    exact ⟨by rw [show tailSlice "21D" xs = some (ilocFrom (-21) xs) from rfl, hs.1], hs.2⟩
  · have hs := slice_spec (-50) 50 (by decide) (by decide) xs h
    exact ⟨by rw [show tailSlice "50D" xs = some (ilocFrom (-50) xs) from rfl, hs.1], hs.2⟩
  · rw [show tailSlice "MAX**" xs = some (ilocFrom 0 xs) from rfl]
    rw [show ilocFrom 0 xs = xs from by unfold ilocFrom; simp]

/-- C8 witness: all seven selector options applied to the concrete 50-point
series `W50`. -/
theorem claim_C8_witness :
    tailSlice "LTD*" W50 = some (W50.drop (W50.length - 1)) ∧
      tailSlice "3D" W50 = some (W50.drop (W50.length - 3)) ∧
      tailSlice "7D" W50 = some (W50.drop (W50.length - 7)) ∧
      tailSlice "14D" W50 = some (W50.drop (W50.length - 14)) ∧
      tailSlice "21D" W50 = some (W50.drop (W50.length - 21)) ∧
      tailSlice "50D" W50 = some (W50.drop (W50.length - 50)) ∧
      (W50.drop (W50.length - 7)).length = 7 ∧
      tailSlice "MAX**" W50 = some W50 :=
  ⟨((claim_C8 W50).1 (by decide)).1,
    ((claim_C8 W50).2.1 (by decide)).1,
    ((claim_C8 W50).2.2.1 (by decide)).1,
    ((claim_C8 W50).2.2.2.1 (by decide)).1,
    ((claim_C8 W50).2.2.2.2.1 (by decide)).1,
    ((claim_C8 W50).2.2.2.2.2.1 (by decide)).1,
    ((claim_C8 W50).2.2.1 (by decide)).2,
    (claim_C8 W50).2.2.2.2.2.2⟩

/-- C10: after the pipeline completes, no entry of the final RS series or of
the final standardized MOM series is NaN, for any input table and
instrument (infinities are not excluded by this statement, only NaN). -/
theorem claim_C10 (S L : ℚ → ℚ) (aprc : PTable) (c : String) :
    (rs S aprc c).all (fun x => !x.isNan) = true ∧
      (rs_mom S L aprc c).all (fun x => !x.isNan) = true :=
  ⟨standardize_all_not_nan S _, standardize_all_not_nan S _⟩

end RRG
